import Mathlib

/-!
Verification of the request-options module (`src/unnamed/part_000`): a shallow
embedding in Lean 4 of `formatQuery`, `defaultOptionsHandler`,
`createRequesterFn` and `presetResourceArguments`, together with theorems that
settle the specification claims about them.

Modelling conventions:
- JavaScript plain values that can appear in option mappings are modelled by
  the inductive `JVal` (strings, numbers as integers, arrays, nested objects).
- JavaScript objects used as string-keyed maps are modelled as association
  lists in insertion order, matching `Object.entries` iteration order; the
  effect of a JS property assignment `o[k] = v` is the function `setKey`.
- Asynchronous functions returning promises are modelled as their outcome,
  an `Except Err` value; a rejected promise is `Except.error`.  An
  auth-header function additionally carries a numeric identity so that the
  builder can report which functions it invoked (the `List Nat` trace
  component); this makes the claim that a function is never invoked statable.
- A `FormData` payload is modelled as an opaque numeric token, so that
  pass-through "by identity" is equality of the token.
-/

set_option autoImplicit false

/-- Error values carried by rejected promises.  The module never constructs,
inspects or wraps errors, so a fixed opaque representation (strings) suffices. -/
abbrev Err := String

/-- JavaScript plain values appearing in bodies, search parameters and
configuration mappings: strings, (integer) numbers, arrays and nested
objects in key insertion order. -/
inductive JVal where
  | str (s : String)
  | num (n : Int)
  | arr (xs : List JVal)
  | obj (fs : List (String × JVal))

/-- Rendering of a number by JavaScript string conversion (template literal,
`JSON.stringify`, `qs` value encoding agree on integers). -/
def intToString (n : Int) : String := toString n

/-- Modelled from the spec: the `xcase` helper lowercases an upper-case
letter when decamelizing a key.  This is the ASCII lowercasing performed by
`String.prototype.toLowerCase` on basic latin letters, which is exactly
Lean's `Char.toLower`. -/
def decamelizeChar (c : Char) : List Char :=
  if c.isUpper then ['_', Char.toLower c] else [c]

/-- Modelled from the spec: the external `xcase` `decamelize` key transform,
turning a camelCase key such as `userName` into snake_case `user_name`: every
upper-case letter after the first character becomes an underscore followed by
its lower-case form, and the first character is lowercased. -/
def decamelize (s : String) : String :=
  match s.data with
  | [] => ""
  | c :: cs => String.mk (Char.toLower c :: (cs.map decamelizeChar).flatten)

mutual

/-- Modelled from the spec: the external `xcase` `decamelizeKeys`, applied to a
value: keys of objects are decamelized recursively, including objects nested
inside arrays; non-object values are left unchanged. -/
def decamelizeVal : JVal → JVal
  | .str s => .str s
  | .num n => .num n
  | .arr xs => .arr (decamelizeList xs)
  | .obj fs => .obj (decamelizeFields fs)

/-- Decamelize every value of a list (array elements). -/
def decamelizeList : List JVal → List JVal
  | [] => []
  | x :: xs => decamelizeVal x :: decamelizeList xs

/-- Decamelize every key of a field list and recurse into the values. -/
def decamelizeFields : List (String × JVal) → List (String × JVal)
  | [] => []
  | (k, v) :: fs => (decamelize k, decamelizeVal v) :: decamelizeFields fs

end

/-- Escaping of a character inside a JSON string literal, as performed by
`JSON.stringify` for the characters that occur in this development. -/
def jsonEscapeChar (c : Char) : List Char :=
  if c = '"' then ['\\', '"']
  else if c = '\\' then ['\\', '\\']
  else if c = '\n' then ['\\', 'n']
  else if c = '\t' then ['\\', 't']
  else if c = '\r' then ['\\', 'r']
  else [c]

/-- Escaping of a whole string for inclusion in a JSON string literal. -/
def jsonEscape (s : String) : String :=
  String.mk (s.data.map jsonEscapeChar).flatten

mutual

/-- Modelled from the spec: `JSON.stringify` on the modelled value subset:
strings are quoted and escaped, numbers rendered in decimal, arrays and
objects rendered with their standard JSON delimiters, in order, without
whitespace. -/
def jsonStringify : JVal → String
  | .str s => "\"" ++ jsonEscape s ++ "\""
  | .num n => intToString n
  | .arr xs => "[" ++ jsonStringifyList xs ++ "]"
  | .obj fs => "\x7b" ++ jsonStringifyFields fs ++ "\x7d"

/-- Comma-separated rendering of JSON array elements. -/
def jsonStringifyList : List JVal → String
  | [] => ""
  | [x] => jsonStringify x
  | x :: y :: t => jsonStringify x ++ "," ++ jsonStringifyList (y :: t)

/-- Comma-separated rendering of JSON object members. -/
def jsonStringifyFields : List (String × JVal) → String
  | [] => ""
  | [(k, v)] => "\"" ++ jsonEscape k ++ "\":" ++ jsonStringify v
  | (k, v) :: f :: t =>
      "\"" ++ jsonEscape k ++ "\":" ++ jsonStringify v ++ "," ++ jsonStringifyFields (f :: t)

end

mutual

/-- Modelled from the spec: pair generation of the external `qs.stringify`
with `arrayFormat: 'brackets'`, under an accumulated key path `kp`: a scalar
yields the single pair `kp=value`, each array element is rendered under the
key path `kp[]`, and each object member under `kp[memberKey]`. -/
def qsPairs (kp : String) : JVal → List String
  | .str s => [kp ++ "=" ++ s]
  | .num n => [kp ++ "=" ++ intToString n]
  | .arr xs => qsPairsList (kp ++ "[]") xs
  | .obj fs => qsPairsFields kp fs

/-- Pairs of all elements of an array, each under the bracketed key path. -/
def qsPairsList (kp : String) : List JVal → List String
  | [] => []
  | x :: t => qsPairs kp x ++ qsPairsList kp t

/-- Pairs of all members of a nested object under a key path. -/
def qsPairsFields (kp : String) : List (String × JVal) → List String
  | [] => []
  | (k, v) :: t => qsPairs (kp ++ "[" ++ k ++ "]") v ++ qsPairsFields kp t

end

/-- Pairs of a top-level mapping: top-level keys are used bare, without
bracketing. -/
def qsTopPairs : List (String × JVal) → List String
  | [] => []
  | (k, v) :: t => qsPairs k v ++ qsTopPairs t

/-- Joining of the generated pairs with the `&` separator. -/
def joinAmp : List String → String
  | [] => ""
  | [s] => s
  | s :: t :: r => s ++ "&" ++ joinAmp (t :: r)

/-- Modelled from the spec: the external `qs.stringify` with
`arrayFormat: 'brackets'`, rendering a mapping as `&`-joined `key=value`
pairs with bracket notation for arrays and bracketed paths for nested
objects. -/
def stringify (fs : List (String × JVal)) : String :=
  joinAmp (qsTopPairs fs)

/-- Embedding of `formatQuery` (src/unnamed/part_000 lines 88-93): decamelize
the keys of the given parameter mapping, then stringify it with bracket-style
array encoding.  The JS default parameter `= {}` is rendered by the caller
passing the empty mapping when `searchParams` is absent. -/
def formatQuery (params : List (String × JVal)) : String :=
  stringify (decamelizeFields params)

example : formatQuery [] = "" := rfl

example :
    formatQuery [("userName", .str "x"), ("tagIds", .arr [.num 1, .num 2])] =
      "user_name=x&tag_ids[]=1&tag_ids[]=2" := by
  decide

example :
    formatQuery [("outerKey", .obj [("innerKey", .str "v")])] =
      "outer_key[inner_key]=v" := by
  decide

/-- Headers mappings: string-keyed, string-valued JS objects in insertion
order. -/
abbrev HMap := List (String × String)

/-- Effect of a JS property assignment `o[k] = v` on an object modelled as an
association list: an existing binding of `k` is overwritten in place,
otherwise the binding is appended at the end (insertion order). -/
def setKey {α : Type} (m : List (String × α)) (k : String) (v : α) : List (String × α) :=
  if m.any (fun p => decide (p.1 = k)) then m.map (fun p => if p.1 = k then (k, v) else p)
  else m ++ [(k, v)]

/-- Property read `o[k]` on an object modelled as an association list. -/
def getKey {α : Type} : List (String × α) → String → Option α
  | [], _ => none
  | (k', v) :: rest, k => if k' = k then some v else getKey rest k

/-- Outcome of a zero-argument asynchronous auth-header function: a numeric
identity (so invocations can be traced) together with the value the returned
promise settles to. -/
structure AuthFn where
  id : Nat
  result : Except Err String

/-- A single named rate limit: either a plain numeric ceiling or a
`(method, limit)` pair (type surface only; the module contains no
enforcement logic). -/
inductive RateLimit where
  | plain (limit : Nat)
  | methodLimit (method : String) (limit : Nat)

/-- Embedding of the `ResourceOptions` type (src/unnamed/part_000 lines
30-37): per-service static configuration.  The connection agent is opaque
and modelled as a numeric token. -/
structure ResourceOptions where
  headers : HMap
  authHeaders : List (String × AuthFn)
  url : String
  rateLimits : Option (List (String × RateLimit)) := none
  rateLimitDuration : Option Nat := none
  agent : Option Nat := none

/-- A sudo impersonation value: `string | number`. -/
inductive SudoVal where
  | str (s : String)
  | num (n : Int)

/-- JS truthiness of a sudo value, as tested by `if (sudo)` on line 122:
the number 0 and the empty string are falsy. -/
def sudoTruthy : SudoVal → Bool
  | .str s => s ≠ ""
  | .num n => n ≠ 0

/-- String form of a sudo value, as produced by the template literal on line
122. -/
def sudoToString : SudoVal → String
  | .str s => s
  | .num n => intToString n

/-- A per-call request body: either a multipart `FormData` payload (opaque
token, compared by identity) or a plain object. -/
inductive ReqBody where
  | form (fd : Nat)
  | obj (fs : List (String × JVal))

/-- Embedding of the `DefaultRequestOptions` type (src/unnamed/part_000
lines 39-46).  The JS field `sudo` is called `sudoVal` here because `sudo`
is reserved in this Lean environment; the cancellation signal is opaque and
modelled as a numeric token. -/
structure DefaultRequestOptions where
  body : Option ReqBody := none
  searchParams : Option (List (String × JVal)) := none
  sudoVal : Option SudoVal := none
  method : Option String := none
  asStream : Option Bool := none
  signal : Option Nat := none

/-- A transport-ready body: the JSON serialization string or the multipart
payload passed through. -/
inductive OutBody where
  | str (s : String)
  | form (fd : Nat)
  deriving DecidableEq

/-- Embedding of the `RequestOptions` type (src/unnamed/part_000 lines
48-58): the transport-ready option bundle produced by the builder.  All
fields are optional in the TS type; the builder populates `headers` before
returning. -/
structure RequestOptions where
  headers : Option HMap := none
  timeout : Option Nat := none
  method : Option String := none
  searchParams : Option String := none
  prefixUrl : Option String := none
  body : Option OutBody := none
  asStream : Option Bool := none
  signal : Option Nat := none
  agent : Option Nat := none
  deriving DecidableEq

/-- Headers of a `RequestOptions`, defaulting to the empty mapping when the
field is unset. -/
def RequestOptions.hdrs (o : RequestOptions) : HMap := o.headers.getD []

/-- Embedding of `defaultOptionsHandler` (src/unnamed/part_000 lines
100-147).  The returned pair is the list of identities of the auth-header
functions the call invoked (the trace making "never invoked" statable)
together with the settled promise: the populated `RequestOptions`, or the
error of the single awaited auth-header function.

Step by step, following the source: destructure the call options with their
defaults (`asStream = false`, `method = 'GET'`); build the initial option
record; copy the preconfigured headers (`{ ...preconfiguredHeaders }` makes
a fresh object, rendered here by the separate heap-instrumented embedding
`defaultOptionsHandlerH` below); set the `sudo` header when the sudo value
is truthy; assign a multipart body verbatim, or decamelize, JSON-serialize
and force `content-type` for a plain object body; invoke only the first
`authHeaders` entry, awaiting its value; finally attach the formatted query
string when it is non-empty. -/
def defaultOptionsHandler (resourceOptions : ResourceOptions)
    (callOptions : DefaultRequestOptions) :
    List Nat × Except Err RequestOptions :=
  let asStream := callOptions.asStream.getD false
  let method := callOptions.method.getD "GET"
  let defaultOptions : RequestOptions :=
    { method := some method
      asStream := some asStream
      signal := callOptions.signal
      prefixUrl := some resourceOptions.url
      agent := resourceOptions.agent }
  let defaultOptions := { defaultOptions with headers := some resourceOptions.headers }
  let defaultOptions :=
    match callOptions.sudoVal with
    | some sv =>
        if sudoTruthy sv then
          { defaultOptions with
            headers := some (setKey defaultOptions.hdrs "sudo" (sudoToString sv)) }
        else defaultOptions
    | none => defaultOptions
  let defaultOptions :=
    match callOptions.body with
    | none => defaultOptions
    | some (.form fd) => { defaultOptions with body := some (.form fd) }
    | some (.obj fs) =>
        { defaultOptions with
          body := some (.str (jsonStringify (.obj (decamelizeFields fs))))
          headers := some (setKey defaultOptions.hdrs "content-type" "application/json") }
  let attachQuery : RequestOptions → RequestOptions := fun o =>
    let q := formatQuery ((callOptions.searchParams).getD [])
    if q ≠ "" then { o with searchParams := some q } else o
  match resourceOptions.authHeaders with
  | [] => ([], .ok (attachQuery defaultOptions))
  | (authHeaderKey, authHeaderFn) :: _ =>
      ([authHeaderFn.id],
        authHeaderFn.result.map fun v =>
          attachQuery
            { defaultOptions with
              headers := some (setKey defaultOptions.hdrs authHeaderKey v) })

example :
    (defaultOptionsHandler { headers := [("a", "1")], authHeaders := [], url := "https://x" } {}).2 =
      .ok { method := some "GET", asStream := some false, prefixUrl := some "https://x",
            headers := some [("a", "1")] } := rfl

example :
    (defaultOptionsHandler { headers := [], authHeaders := [], url := "u" }
      { body := some (.obj [("userName", .str "x")]) }).2 =
      .ok { method := some "GET", asStream := some false, prefixUrl := some "u",
            headers := some [("content-type", "application/json")],
            body := some (.str "\x7b\"user_name\":\"x\"\x7d") } := rfl

example :
    (defaultOptionsHandler
      { headers := [], authHeaders := [("Authorization", ⟨7, .ok "Bearer t"⟩)], url := "u" } {}) =
      ([7], .ok { method := some "GET", asStream := some false, prefixUrl := some "u",
                  headers := some [("Authorization", "Bearer t")] }) := rfl

/-- Embedding of the `FormattedResponse` type (src/unnamed/part_000 lines
20-24): the transport's formatted response. -/
structure FormattedResponse where
  body : JVal
  headers : HMap
  status : Nat

/-- Embedding of the `OptionsHandlerFn` type (src/unnamed/part_000 lines
95-98): the caller-supplied options post-processing step, modelled by the
outcome of the promise it returns. -/
abbrev OptionsHandlerFn := ResourceOptions → RequestOptions → Except Err RequestOptions

/-- Embedding of the `RequestHandlerFn` type (src/unnamed/part_000 lines
83-86): the caller-supplied transport invocation, modelled by the outcome of
the promise it returns. -/
abbrev RequestHandlerFn := String → RequestOptions → Except Err FormattedResponse

/-- The identity options handler: resolves with the built options
unchanged. -/
def idOptionsHandler : OptionsHandlerFn := fun _ requestOptions => .ok requestOptions

/-- Modelling of JS `String.prototype.toUpperCase` on the ASCII method
names. -/
def toUpperCase (s : String) : String := String.mk (s.data.map Char.toUpper)

/-- The five verb names iterated over by `createRequesterFn`
(src/unnamed/part_000 line 153). -/
def methods : List String := ["get", "post", "put", "patch", "delete"]

/-- Embedding of the body of one generated verb method (src/unnamed/part_000
lines 159-167): spread the caller's per-call options with the upper-cased
verb name injected as `method`, build the default options, pass them through
the injected options handler, and hand the final options to the injected
request handler (the final `{ ...requestOptions }` spread is a shallow copy,
the identity on our value-level records).  Each `await` of a rejected
promise rejects the whole call, which is exactly `Except.bind`.  The
invocation-trace component of the builder is passed through unchanged. -/
def mkVerbFn (optionsHandler : OptionsHandlerFn) (requestHandler : RequestHandlerFn)
    (serviceOptions : ResourceOptions) (m : String) :
    String → DefaultRequestOptions → List Nat × Except Err FormattedResponse :=
  fun endpoint options =>
    let built := defaultOptionsHandler serviceOptions
      { options with method := some (toUpperCase m) }
    (built.1,
      built.2.bind fun defaultRequestOptions =>
        (optionsHandler serviceOptions defaultRequestOptions).bind fun requestOptions =>
          requestHandler endpoint requestOptions)

/-- The generated requester: one method per HTTP verb (src/unnamed/part_000
lines 60-81). -/
structure RequesterType where
  get : String → DefaultRequestOptions → List Nat × Except Err FormattedResponse
  post : String → DefaultRequestOptions → List Nat × Except Err FormattedResponse
  put : String → DefaultRequestOptions → List Nat × Except Err FormattedResponse
  patch : String → DefaultRequestOptions → List Nat × Except Err FormattedResponse
  delete : String → DefaultRequestOptions → List Nat × Except Err FormattedResponse

/-- Embedding of `createRequesterFn` (src/unnamed/part_000 lines 149-172):
the `methods.forEach` loop installs `mkVerbFn` under each of the five verb
names. -/
def createRequesterFn (optionsHandler : OptionsHandlerFn) (requestHandler : RequestHandlerFn) :
    ResourceOptions → RequesterType :=
  fun serviceOptions =>
    { get := mkVerbFn optionsHandler requestHandler serviceOptions "get"
      post := mkVerbFn optionsHandler requestHandler serviceOptions "post"
      put := mkVerbFn optionsHandler requestHandler serviceOptions "put"
      patch := mkVerbFn optionsHandler requestHandler serviceOptions "patch"
      delete := mkVerbFn optionsHandler requestHandler serviceOptions "delete" }

/-- A resource constructor, modelled by its observable behaviour: a function
from the configuration object and the remaining constructor arguments to the
constructed instance (opaque, represented as a `JVal`). -/
abbrev CtorFn := List (String × JVal) → List JVal → JVal

/-- A value of the input mapping of `presetResourceArguments`: either a
constructor or a plain (non-function) value. -/
inductive ResVal where
  | ctor (c : CtorFn)
  | plain (v : JVal)

/-- Building a JS object by assigning all bindings of `l` on top of `m`, in
order: the semantics of object spread continuation. -/
def objUpdate (m : List (String × JVal)) (l : List (String × JVal)) : List (String × JVal) :=
  l.foldl (fun acc p => setKey acc p.1 p.2) m

/-- Semantics of the object literal `{ ...a, ...b }` (src/unnamed/part_000
line 185): assign all bindings of `a` into a fresh object, then all bindings
of `b`, later assignments overwriting earlier ones in place. -/
def spreadMerge (a b : List (String × JVal)) : List (String × JVal) :=
  objUpdate (objUpdate [] a) b

/-- Embedding of `createPresetConstructor` (src/unnamed/part_000 lines
178-188): the wrapping subclass forwards to the original constructor with
`{ ...presetConfig, ...config }` in place of the first argument and the
remaining arguments unchanged. -/
def createPresetConstructor (constructor : CtorFn) (presetConfig : List (String × JVal)) : CtorFn :=
  fun config rest => constructor (spreadMerge presetConfig config) rest

/-- Embedding of `presetResourceArguments` (src/unnamed/part_000 lines
190-208): over `Object.entries` of the input mapping, wrap each constructor
with `createPresetConstructor` and pass every non-constructor value through
unchanged, rebuilding the mapping under the same keys (the `typeof
Constructor === 'function'` test is the `ResVal` case split). -/
def presetResourceArguments (resources : List (String × ResVal))
    (customConfig : List (String × JVal)) : List (String × ResVal) :=
  resources.map fun p =>
    match p.2 with
    | .ctor c => (p.1, .ctor (createPresetConstructor c customConfig))
    | .plain v => (p.1, .plain v)

example :
    spreadMerge [("base", .num 1)] [("extra", .num 2)] =
      [("base", JVal.num 1), ("extra", JVal.num 2)] := rfl

example :
    spreadMerge [("base", .num 1)] [("base", .num 9)] = [("base", JVal.num 9)] := rfl

/-- A store of headers objects, modelling the JS heap locations that
`defaultOptionsHandler` can read and write; references are list indices. -/
abbrev Store := List HMap

/-- Reading the headers object a reference points to. -/
def readH (σ : Store) (r : Nat) : HMap := σ.getD r []

/-- Overwriting the headers object a reference points to. -/
def writeH (σ : Store) (r : Nat) (h : HMap) : Store := σ.set r h

/-- Resource options with the headers collection held by reference, for the
heap-instrumented rendering of the builder. -/
structure ResourceOptionsRef where
  headersRef : Nat
  authHeaders : List (String × AuthFn)
  url : String
  agent : Option Nat := none

/-- Result of the heap-instrumented builder: the fields of `RequestOptions`
with the headers object held by reference. -/
structure RequestOptionsRef where
  headersRef : Nat
  method : Option String := none
  searchParams : Option String := none
  prefixUrl : Option String := none
  body : Option OutBody := none
  asStream : Option Bool := none
  signal : Option Nat := none
  agent : Option Nat := none
  deriving DecidableEq

/-- Heap-instrumented rendering of `defaultOptionsHandler`
(src/unnamed/part_000 lines 100-147), step for step the same as the pure
embedding above, but with the headers objects living in an explicit store so
that mutation is observable: `defaultOptions.headers = { ...preconfiguredHeaders }`
(line 120) allocates a fresh object initialized with a shallow copy of the
preconfigured headers, and the sudo, content-type and auth-header
assignments (lines 122, 130, 138) write to that fresh object only.  Returns
the final store, the invocation trace and the settled result. -/
def defaultOptionsHandlerH (σ : Store) (resourceOptions : ResourceOptionsRef)
    (callOptions : DefaultRequestOptions) :
    Store × List Nat × Except Err RequestOptionsRef :=
  let asStream := callOptions.asStream.getD false
  let method := callOptions.method.getD "GET"
  let hRef := σ.length
  let σ₁ := σ ++ [readH σ resourceOptions.headersRef]
  let σ₂ :=
    match callOptions.sudoVal with
    | some sv =>
        if sudoTruthy sv then writeH σ₁ hRef (setKey (readH σ₁ hRef) "sudo" (sudoToString sv))
        else σ₁
    | none => σ₁
  let bodyStep : Store × Option OutBody :=
    match callOptions.body with
    | none => (σ₂, none)
    | some (.form fd) => (σ₂, some (.form fd))
    | some (.obj fs) =>
        (writeH σ₂ hRef (setKey (readH σ₂ hRef) "content-type" "application/json"),
          some (.str (jsonStringify (.obj (decamelizeFields fs)))))
  let σ₃ := bodyStep.1
  let q := formatQuery ((callOptions.searchParams).getD [])
  let mkResult : RequestOptionsRef :=
    { headersRef := hRef
      method := some method
      searchParams := if q ≠ "" then some q else none
      prefixUrl := some resourceOptions.url
      body := bodyStep.2
      asStream := some asStream
      signal := callOptions.signal
      agent := resourceOptions.agent }
  match resourceOptions.authHeaders with
  | [] => (σ₃, [], .ok mkResult)
  | (authHeaderKey, authHeaderFn) :: _ =>
      match authHeaderFn.result with
      | .error e => (σ₃, [authHeaderFn.id], .error e)
      | .ok v =>
          (writeH σ₃ hRef (setKey (readH σ₃ hRef) authHeaderKey v),
            [authHeaderFn.id], .ok mkResult)

example :
    (defaultOptionsHandlerH [[("a", "1")]] { headersRef := 0, authHeaders := [], url := "u" }
      { sudoVal := some (.num 42) }) =
      ([[("a", "1")], [("a", "1"), ("sudo", "42")]], [],
        .ok { headersRef := 1, method := some "GET", asStream := some false,
              prefixUrl := some "u" }) := rfl


theorem getKey_append {α : Type} (m m' : List (String × α)) (k : String) :
    getKey (m ++ m') k = (getKey m k).or (getKey m' k) := by
  induction m with
  | nil => simp [getKey]
  | cons p t ih =>
      obtain ⟨k', v⟩ := p
      by_cases h : k' = k
      · simp [getKey, h]
      · simp [getKey, h, ih]

theorem getKey_eq_none_of_any_eq_false {α : Type} (m : List (String × α)) (k : String)
    (h : m.any (fun p => decide (p.1 = k)) = false) : getKey m k = none := by
  induction m with
  | nil => simp [getKey]
  | cons p t ih =>
      obtain ⟨k', v⟩ := p
      simp only [List.any_cons, Bool.or_eq_false_iff, decide_eq_false_iff_not] at h
      simp [getKey, h.1, ih h.2]

theorem getKey_map_set_self {α : Type} (t : List (String × α)) (k : String) (v : α)
    (h : t.any (fun p => decide (p.1 = k)) = true) :
    getKey (t.map fun p => if p.1 = k then (k, v) else p) k = some v := by
  induction t with
  | nil => simp at h
  | cons p t ih =>
      obtain ⟨k₀, v₀⟩ := p
      have hbeta : (if (k₀, v₀).1 = k then (k, v) else (k₀, v₀)) =
          if k₀ = k then (k, v) else (k₀, v₀) := rfl
      rw [List.map_cons, hbeta]
      by_cases h0 : k₀ = k
      · rw [if_pos h0]
        simp [getKey]
      · rw [if_neg h0]
        have ht : t.any (fun p => decide (p.1 = k)) = true := by
          simp only [List.any_cons, Bool.or_eq_true, decide_eq_true_eq] at h
          rcases h with h1 | h2
          · exact absurd h1 h0
          · exact h2
        simpa [getKey, h0] using ih ht

theorem getKey_map_set_ne {α : Type} (t : List (String × α)) (k k' : String) (v : α)
    (h : k' ≠ k) :
    getKey (t.map fun p => if p.1 = k then (k, v) else p) k' = getKey t k' := by
  induction t with
  | nil => rfl
  | cons p t ih =>
      obtain ⟨k₀, v₀⟩ := p
      have hbeta : (if (k₀, v₀).1 = k then (k, v) else (k₀, v₀)) =
          if k₀ = k then (k, v) else (k₀, v₀) := rfl
      rw [List.map_cons, hbeta]
      by_cases h0 : k₀ = k
      · rw [if_pos h0]
        have hne : ¬ k₀ = k' := fun he => h (he.symm.trans h0)
        have hkk : ¬ k = k' := fun he => h he.symm
        simp [getKey, hne, hkk, ih]
      · rw [if_neg h0]
        by_cases h1 : k₀ = k'
        · simp [getKey, h1]
        · simp [getKey, h1, ih]

theorem getKey_setKey_self {α : Type} (m : List (String × α)) (k : String) (v : α) :
    getKey (setKey m k v) k = some v := by
  unfold setKey
  split
  · rename_i hany
    exact getKey_map_set_self m k v hany
  · rename_i hany
    have hf : m.any (fun p => decide (p.1 = k)) = false := by
      cases hx : m.any (fun p => decide (p.1 = k)) with
      | false => rfl
      | true => exact absurd hx hany
    rw [getKey_append]
    have hnone : getKey m k = none := getKey_eq_none_of_any_eq_false m k hf
    simp [hnone, getKey]

theorem getKey_setKey_ne {α : Type} (m : List (String × α)) (k k' : String) (v : α)
    (h : k' ≠ k) : getKey (setKey m k v) k' = getKey m k' := by
  unfold setKey
  split
  · exact getKey_map_set_ne m k k' v h
  · rw [getKey_append]
    have hsingle : getKey [(k, v)] k' = none := by
      have hne : ¬ k = k' := fun he => h he.symm
      simp [getKey, hne]
    rw [hsingle]
    cases getKey m k' <;> rfl

theorem getKey_eq_none_of_not_mem {α : Type} (m : List (String × α)) (k : String)
    (h : k ∉ m.map Prod.fst) : getKey m k = none := by
  induction m with
  | nil => simp [getKey]
  | cons p t ih =>
      obtain ⟨k', v⟩ := p
      simp only [List.map_cons, List.mem_cons] at h
      push_neg at h
      have h1 : ¬ k' = k := fun he => h.1 he.symm
      simp [getKey, h1, ih h.2]

/-- Headers after the copy, sudo and body steps of the builder, before the
auth-header step. -/
def preAuthHeaders (resourceOptions : ResourceOptions)
    (callOptions : DefaultRequestOptions) : HMap :=
  let h₁ :=
    match callOptions.sudoVal with
    | some sv =>
        if sudoTruthy sv then setKey resourceOptions.headers "sudo" (sudoToString sv)
        else resourceOptions.headers
    | none => resourceOptions.headers
  match callOptions.body with
  | some (.obj _) => setKey h₁ "content-type" "application/json"
  | _ => h₁

/-- Body produced by the body step of the builder. -/
def builtBody (callOptions : DefaultRequestOptions) : Option OutBody :=
  match callOptions.body with
  | none => none
  | some (.form fd) => some (.form fd)
  | some (.obj fs) => some (.str (jsonStringify (.obj (decamelizeFields fs))))

/-- Query string attached by the builder: the formatted search parameters
when non-empty. -/
def builtQuery (callOptions : DefaultRequestOptions) : Option String :=
  let q := formatQuery ((callOptions.searchParams).getD [])
  if q ≠ "" then some q else none

/-- The request options the builder resolves with, before the auth-header
step is folded into the headers. -/
def builtBase (resourceOptions : ResourceOptions)
    (callOptions : DefaultRequestOptions) : RequestOptions :=
  { method := some (callOptions.method.getD "GET")
    asStream := some (callOptions.asStream.getD false)
    signal := callOptions.signal
    prefixUrl := some resourceOptions.url
    agent := resourceOptions.agent
    headers := some (preAuthHeaders resourceOptions callOptions)
    body := builtBody callOptions
    searchParams := builtQuery callOptions }

/-- Closed form of the builder: with no auth headers it resolves with
`builtBase` and an empty invocation trace; otherwise it invokes exactly the
first auth-header function and either propagates its error or resolves with
`builtBase` whose headers additionally bind the first auth-header key. -/
theorem defaultOptionsHandler_eq (resourceOptions : ResourceOptions)
    (callOptions : DefaultRequestOptions) :
    defaultOptionsHandler resourceOptions callOptions =
      match resourceOptions.authHeaders with
      | [] => ([], .ok (builtBase resourceOptions callOptions))
      | (authHeaderKey, authHeaderFn) :: _ =>
          ([authHeaderFn.id],
            authHeaderFn.result.map fun v =>
              { builtBase resourceOptions callOptions with
                headers := some
                  (setKey (preAuthHeaders resourceOptions callOptions) authHeaderKey v) }) := by
  obtain ⟨hd, au, url, rl, rld, ag⟩ := resourceOptions
  obtain ⟨b, sp, sv, mm, strm, sg⟩ := callOptions
  unfold defaultOptionsHandler builtBase preAuthHeaders builtBody builtQuery
  rcases au with _ | ⟨⟨ak, afid, afres⟩, rest⟩
  · rcases sv with _ | s
    · rcases b with _ | fd | fs <;>
        by_cases hq : formatQuery (sp.getD []) = "" <;>
          simp [RequestOptions.hdrs, hq]
    · by_cases ht : sudoTruthy s <;>
        rcases b with _ | fd | fs <;>
          by_cases hq : formatQuery (sp.getD []) = "" <;>
            simp [RequestOptions.hdrs, hq, ht]
  · cases afres with
    | error e =>
        rcases sv with _ | s
        · rcases b with _ | fd | fs <;> simp [RequestOptions.hdrs, Except.map]
        · by_cases ht : sudoTruthy s <;>
            rcases b with _ | fd | fs <;> simp [RequestOptions.hdrs, Except.map, ht]
    | ok v =>
        rcases sv with _ | s
        · rcases b with _ | fd | fs <;>
            by_cases hq : formatQuery (sp.getD []) = "" <;>
              simp [RequestOptions.hdrs, Except.map, hq]
        · by_cases ht : sudoTruthy s <;>
            rcases b with _ | fd | fs <;>
              by_cases hq : formatQuery (sp.getD []) = "" <;>
                simp [RequestOptions.hdrs, Except.map, hq, ht]

theorem builtBase_hdrs (resourceOptions : ResourceOptions) (callOptions : DefaultRequestOptions) :
    (builtBase resourceOptions callOptions).hdrs = preAuthHeaders resourceOptions callOptions := rfl

/-- Fields of any successfully built options: the method is the caller's
method defaulted to GET, and the prefix URL is the service URL. -/
theorem defaultOptionsHandler_ok_fields (resourceOptions : ResourceOptions)
    (callOptions : DefaultRequestOptions) (d : RequestOptions)
    (hd : (defaultOptionsHandler resourceOptions callOptions).2 = .ok d) :
    d.method = some (callOptions.method.getD "GET")
      ∧ d.prefixUrl = some resourceOptions.url
      ∧ d.body = builtBody callOptions
      ∧ d.headers.isSome = true := by
  rw [defaultOptionsHandler_eq] at hd
  cases hau : resourceOptions.authHeaders with
  | nil =>
      rw [hau] at hd
      simp only [Except.ok.injEq] at hd
      subst hd
      exact ⟨rfl, rfl, rfl, rfl⟩
  | cons p rest =>
      obtain ⟨ak, af⟩ := p
      rw [hau] at hd
      cases hr : af.result with
      | error e => simp [hr, Except.map] at hd
      | ok v =>
          simp only [hr, Except.map, Except.ok.injEq] at hd
          subst hd
          exact ⟨rfl, rfl, rfl, rfl⟩

/-- A key that is not preconfigured, not `sudo`, not `content-type` is unbound
in the headers built before the auth step. -/
theorem preAuthHeaders_fresh (resourceOptions : ResourceOptions)
    (callOptions : DefaultRequestOptions) (k : String)
    (hpre : k ∉ resourceOptions.headers.map Prod.fst)
    (hsudo : k ≠ "sudo") (hct : k ≠ "content-type") :
    getKey (preAuthHeaders resourceOptions callOptions) k = none := by
  unfold preAuthHeaders
  have hbase : getKey resourceOptions.headers k = none :=
    getKey_eq_none_of_not_mem _ _ hpre
  cases hs : callOptions.sudoVal with
  | none =>
      cases hb : callOptions.body with
      | none => simpa using hbase
      | some b =>
          cases b with
          | form fd => simpa using hbase
          | obj fs => simpa [getKey_setKey_ne _ _ _ _ hct] using hbase
  | some sv =>
      by_cases ht : sudoTruthy sv
      · cases hb : callOptions.body with
        | none => simpa [ht, getKey_setKey_ne _ _ _ _ hsudo] using hbase
        | some b =>
            cases b with
            | form fd => simpa [ht, getKey_setKey_ne _ _ _ _ hsudo] using hbase
            | obj fs =>
                simpa [ht, getKey_setKey_ne _ _ _ _ hct, getKey_setKey_ne _ _ _ _ hsudo]
                  using hbase
      · cases hb : callOptions.body with
        | none => simpa [ht] using hbase
        | some b =>
            cases b with
            | form fd => simpa [ht] using hbase
            | obj fs => simpa [ht, getKey_setKey_ne _ _ _ _ hct] using hbase

/-- Lookup of `sudo` in the pre-auth headers when the sudo value is truthy. -/
theorem preAuthHeaders_sudo (resourceOptions : ResourceOptions)
    (callOptions : DefaultRequestOptions) (sv : SudoVal)
    (hs : callOptions.sudoVal = some sv) (ht : sudoTruthy sv = true) :
    getKey (preAuthHeaders resourceOptions callOptions) "sudo" = some (sudoToString sv) := by
  unfold preAuthHeaders
  have hset : getKey (setKey resourceOptions.headers "sudo" (sudoToString sv)) "sudo" =
      some (sudoToString sv) := getKey_setKey_self _ _ _
  have hne : ("sudo" : String) ≠ "content-type" := by decide
  cases hb : callOptions.body with
  | none => simpa [hs, ht] using hset
  | some b =>
      cases b with
      | form fd => simpa [hs, ht] using hset
      | obj fs => simpa [hs, ht, getKey_setKey_ne _ _ _ _ hne] using hset

/-- Lookup of `content-type` in the pre-auth headers, per body shape. -/
theorem preAuthHeaders_content_type_obj (resourceOptions : ResourceOptions)
    (callOptions : DefaultRequestOptions) (fs : List (String × JVal))
    (hb : callOptions.body = some (.obj fs)) :
    getKey (preAuthHeaders resourceOptions callOptions) "content-type" =
      some "application/json" := by
  unfold preAuthHeaders
  simp [hb, getKey_setKey_self]

theorem preAuthHeaders_content_type_not_obj (resourceOptions : ResourceOptions)
    (callOptions : DefaultRequestOptions)
    (hb : ∀ fs, callOptions.body ≠ some (.obj fs)) :
    getKey (preAuthHeaders resourceOptions callOptions) "content-type" =
      getKey resourceOptions.headers "content-type" := by
  unfold preAuthHeaders
  have hne : ("content-type" : String) ≠ "sudo" := by decide
  cases hs : callOptions.sudoVal with
  | none =>
      cases hbc : callOptions.body with
      | none => simp
      | some b =>
          cases b with
          | form fd => simp
          | obj fs => exact absurd hbc (hb fs)
  | some sv =>
      by_cases ht : sudoTruthy sv
      · cases hbc : callOptions.body with
        | none => simp [ht, getKey_setKey_ne _ _ _ _ hne]
        | some b =>
            cases b with
            | form fd => simp [ht, getKey_setKey_ne _ _ _ _ hne]
            | obj fs => exact absurd hbc (hb fs)
      · cases hbc : callOptions.body with
        | none => simp [ht]
        | some b =>
            cases b with
            | form fd => simp [ht]
            | obj fs => exact absurd hbc (hb fs)

/-- Claim C1: for every resourceOptions whose authHeaders mapping is
non-empty, defaultOptionsHandler invokes only the function of the first
entry in iteration order (the invocation trace is exactly that function's
identity, so no other entry's function is ever invoked) and sets exactly
that header name to the function's resolved value in the result headers;
the header of any other authHeaders entry (a key that is distinct from the
first entry's key and not otherwise introduced by the preconfigured
headers, the sudo step or the content-type step) is never set.  A rejection
of the first entry's function is propagated. -/
theorem c1_auth_first_entry_only (resourceOptions : ResourceOptions)
    (callOptions : DefaultRequestOptions) (k₁ : String) (fn₁ : AuthFn)
    (rest : List (String × AuthFn))
    (hau : resourceOptions.authHeaders = (k₁, fn₁) :: rest) :
    (defaultOptionsHandler resourceOptions callOptions).1 = [fn₁.id]
    ∧ (∀ p ∈ rest, p.2.id ≠ fn₁.id →
        p.2.id ∉ (defaultOptionsHandler resourceOptions callOptions).1)
    ∧ (∀ v, fn₁.result = .ok v →
        ∃ d, (defaultOptionsHandler resourceOptions callOptions).2 = .ok d
          ∧ getKey d.hdrs k₁ = some v
          ∧ (∀ k', k' ≠ k₁ → k' ∉ resourceOptions.headers.map Prod.fst →
              k' ≠ "sudo" → k' ≠ "content-type" → getKey d.hdrs k' = none))
    ∧ (∀ e, fn₁.result = .error e →
        (defaultOptionsHandler resourceOptions callOptions).2 = .error e) := by
  rw [defaultOptionsHandler_eq, hau]
  refine ⟨rfl, ?_, ?_, ?_⟩
  · intro p _ hne hmem
    simp only [List.mem_singleton] at hmem
    exact hne hmem
  · intro v hv
    refine ⟨{ builtBase resourceOptions callOptions with
        headers := some (setKey (preAuthHeaders resourceOptions callOptions) k₁ v) },
      by simp [hv, Except.map], ?_, ?_⟩
    · simpa [RequestOptions.hdrs] using
        getKey_setKey_self (preAuthHeaders resourceOptions callOptions) k₁ v
    · intro k' hk1 hpre hsudo hct
      have hne := getKey_setKey_ne (preAuthHeaders resourceOptions callOptions) k₁ k' v hk1
      have hfresh := preAuthHeaders_fresh resourceOptions callOptions k' hpre hsudo hct
      simpa [RequestOptions.hdrs, hne] using hfresh
  · intro e he
    simp [he, Except.map]

/-- Sample resource options with two auth-header entries, for the C1
witness. -/
def c1RO : ResourceOptions :=
  ⟨[], [("Authorization", ⟨7, .ok "tok"⟩), ("X-Other", ⟨8, .ok "other"⟩)], "u", none, none,
    none⟩

/-- The options the builder resolves with on `c1RO` and empty call
options. -/
def c1Out : RequestOptions :=
  { method := some "GET", asStream := some false, prefixUrl := some "u",
    headers := some [("Authorization", "tok")] }

/-- Witness for C1: with `authHeaders = [Authorization ↦ fn 7 (ok "tok"), X-Other ↦ fn 8 …]`,
only function 7 is invoked, the `Authorization` header carries its resolved
value, and the `X-Other` header stays unset. -/
theorem c1_witness :
    (defaultOptionsHandler c1RO {}).1 = [7]
    ∧ (8 : Nat) ∉ (defaultOptionsHandler c1RO {}).1
    ∧ (defaultOptionsHandler c1RO {}).2 = .ok c1Out
    ∧ getKey c1Out.hdrs "Authorization" = some "tok"
    ∧ getKey c1Out.hdrs "X-Other" = none := by
  obtain ⟨h1, h2, h3, h4⟩ := c1_auth_first_entry_only c1RO {} "Authorization"
    ⟨7, .ok "tok"⟩ [("X-Other", ⟨8, .ok "other"⟩)] rfl
  obtain ⟨d, hd, hk, hfresh⟩ := h3 "tok" rfl
  have hdc : d = c1Out := by
    have h' : Except.ok (ε := Err) d = Except.ok c1Out := by
      rw [← hd]
      rfl
    exact Except.ok.inj h'
  subst hdc
  exact ⟨h1, h2 ("X-Other", ⟨8, .ok "other"⟩) (by simp) (by decide), hd, hk,
    hfresh "X-Other" (by decide) (by simp [c1RO]) (by decide) (by decide)⟩

/-- Claim C2: when a body is present, a multipart FormData payload passes
through as the very same object and the builder does not set a
content-type header (the result's content-type binding is exactly the
preconfigured one, provided the first auth header does not itself use that
name); any other object body is key-decamelized, JSON-serialized, and the
headers carry `content-type: application/json`. -/
theorem c2_body_handling (resourceOptions : ResourceOptions)
    (callOptions : DefaultRequestOptions) :
    (∀ fd, callOptions.body = some (.form fd) →
      ∀ d, (defaultOptionsHandler resourceOptions callOptions).2 = .ok d →
        d.body = some (.form fd)
        ∧ ((∀ p ∈ resourceOptions.authHeaders.take 1, p.1 ≠ "content-type") →
            getKey d.hdrs "content-type" = getKey resourceOptions.headers "content-type"))
    ∧ (∀ fs, callOptions.body = some (.obj fs) →
      ∀ d, (defaultOptionsHandler resourceOptions callOptions).2 = .ok d →
        d.body = some (.str (jsonStringify (.obj (decamelizeFields fs))))
        ∧ ((∀ p ∈ resourceOptions.authHeaders.take 1, p.1 ≠ "content-type") →
            getKey d.hdrs "content-type" = some "application/json")) := by
  constructor
  · intro fd hb d hd
    have hfields := defaultOptionsHandler_ok_fields resourceOptions callOptions d hd
    refine ⟨by rw [hfields.2.2.1]; simp [builtBody, hb], ?_⟩
    intro hauth
    have hnotobj : ∀ fs, callOptions.body ≠ some (.obj fs) := by
      intro fs hcontra
      rw [hb] at hcontra
      exact ReqBody.noConfusion (Option.some.injEq _ _ ▸ hcontra)
    have hpre := preAuthHeaders_content_type_not_obj resourceOptions callOptions hnotobj
    rw [defaultOptionsHandler_eq] at hd
    cases hau : resourceOptions.authHeaders with
    | nil =>
        rw [hau] at hd
        simp only [Except.ok.injEq] at hd
        subst hd
        simpa [builtBase_hdrs] using hpre
    | cons p rest =>
        obtain ⟨ak, af⟩ := p
        rw [hau] at hd
        cases hr : af.result with
        | error e => simp [hr, Except.map] at hd
        | ok v =>
            simp only [hr, Except.map, Except.ok.injEq] at hd
            subst hd
            have hak : ak ≠ "content-type" := by
              have := hauth (ak, af)
              simp [hau] at this
              exact this
            have hne := getKey_setKey_ne (preAuthHeaders resourceOptions callOptions)
              ak "content-type" v (fun he => hak he.symm)
            simpa [RequestOptions.hdrs, hne] using hpre
  · intro fs hb d hd
    have hfields := defaultOptionsHandler_ok_fields resourceOptions callOptions d hd
    refine ⟨by rw [hfields.2.2.1]; simp [builtBody, hb], ?_⟩
    intro hauth
    have hpre := preAuthHeaders_content_type_obj resourceOptions callOptions fs hb
    rw [defaultOptionsHandler_eq] at hd
    cases hau : resourceOptions.authHeaders with
    | nil =>
        rw [hau] at hd
        simp only [Except.ok.injEq] at hd
        subst hd
        simpa [builtBase_hdrs] using hpre
    | cons p rest =>
        obtain ⟨ak, af⟩ := p
        rw [hau] at hd
        cases hr : af.result with
        | error e => simp [hr, Except.map] at hd
        | ok v =>
            simp only [hr, Except.map, Except.ok.injEq] at hd
            subst hd
            have hak : ak ≠ "content-type" := by
              have := hauth (ak, af)
              simp [hau] at this
              exact this
            have hne := getKey_setKey_ne (preAuthHeaders resourceOptions callOptions)
              ak "content-type" v (fun he => hak he.symm)
            simpa [RequestOptions.hdrs, hne] using hpre

/-- Empty-configuration resource options used by several witnesses. -/
def emptyRO : ResourceOptions := ⟨[], [], "u", none, none, none⟩

/-- Built options for the multipart-body C2 witness. -/
def c2OutForm : RequestOptions :=
  { method := some "GET", asStream := some false, prefixUrl := some "u",
    headers := some [], body := some (.form 5) }

/-- Built options for the plain-object-body C2 witness. -/
def c2OutJson : RequestOptions :=
  { method := some "GET", asStream := some false, prefixUrl := some "u",
    headers := some [("content-type", "application/json")],
    body := some (.str "\x7b\"user_name\":\"x\"\x7d") }

/-- Witness for C2: a multipart payload (token 5) passes through by identity
with no content-type set, and the plain body `{userName: "x"}` yields the
JSON string with underscored key and the forced content-type header. -/
theorem c2_witness :
    (defaultOptionsHandler emptyRO { body := some (.form 5) }).2 = .ok c2OutForm
    ∧ getKey c2OutForm.hdrs "content-type" = none
    ∧ (defaultOptionsHandler emptyRO
        { body := some (.obj [("userName", .str "x")]) }).2 = .ok c2OutJson
    ∧ getKey c2OutJson.hdrs "content-type" = some "application/json" := by
  have h1 := (c2_body_handling emptyRO { body := some (.form 5) }).1 5 rfl c2OutForm rfl
  have h2 := (c2_body_handling emptyRO { body := some (.obj [("userName", .str "x")]) }).2
    [("userName", .str "x")] rfl c2OutJson rfl
  exact ⟨rfl, h1.2 (by simp [emptyRO]), rfl, h2.2 (by simp [emptyRO])⟩

/-- Claim C5 as stated is false: a present sudo value of 0 is falsy in the
`if (sudo)` test on line 122, so no `sudo` header is set even though a sudo
value is present; the claim demands `some "0"`, the code yields `none`. -/
theorem c5_counterexample :
    (defaultOptionsHandler ⟨[], [], "u", none, none, none⟩
        { sudoVal := some (.num 0) }).2.toOption.map (fun d => getKey d.hdrs "sudo") =
      some none := rfl

/-- Claim C5 (amended): for every call in which a sudo value is present and
truthy (a non-zero number or non-empty string), the result headers map
`sudo` to the string form of that value (provided the single consulted
auth-header entry does not itself use the name `sudo`); in particular the
number 42 has string form "42".  A present but falsy sudo value (the number
0 or the empty string) sets no header. -/
theorem c5_sudo_header (resourceOptions : ResourceOptions)
    (callOptions : DefaultRequestOptions) (sv : SudoVal)
    (hs : callOptions.sudoVal = some sv) (ht : sudoTruthy sv = true)
    (hauth : ∀ p ∈ resourceOptions.authHeaders.take 1, p.1 ≠ "sudo")
    (d : RequestOptions)
    (hd : (defaultOptionsHandler resourceOptions callOptions).2 = .ok d) :
    getKey d.hdrs "sudo" = some (sudoToString sv)
    ∧ sudoToString (.num 42) = "42"
    ∧ sudoTruthy (.num 0) = false
    ∧ sudoTruthy (.str "") = false := by
  refine ⟨?_, rfl, rfl, rfl⟩
  have hpre := preAuthHeaders_sudo resourceOptions callOptions sv hs ht
  rw [defaultOptionsHandler_eq] at hd
  cases hau : resourceOptions.authHeaders with
  | nil =>
      rw [hau] at hd
      simp only [Except.ok.injEq] at hd
      subst hd
      simpa [builtBase_hdrs] using hpre
  | cons p rest =>
      obtain ⟨ak, af⟩ := p
      rw [hau] at hd
      cases hr : af.result with
      | error e => simp [hr, Except.map] at hd
      | ok v =>
          simp only [hr, Except.map, Except.ok.injEq] at hd
          subst hd
          have hak : ak ≠ "sudo" := by
            have := hauth (ak, af)
            simp [hau] at this
            exact this
          have hne := getKey_setKey_ne (preAuthHeaders resourceOptions callOptions)
            ak "sudo" v (fun he => hak he.symm)
          simpa [RequestOptions.hdrs, hne] using hpre

/-- Built options for the C5 witness. -/
def c5Out : RequestOptions :=
  { method := some "GET", asStream := some false, prefixUrl := some "u",
    headers := some [("sudo", "42")] }

/-- Witness for the amended C5: sudo 42 yields the header binding
`sudo ↦ "42"`. -/
theorem c5_witness :
    (defaultOptionsHandler emptyRO { sudoVal := some (.num 42) }).2 = .ok c5Out
    ∧ getKey c5Out.hdrs "sudo" = some "42" := by
  have h := c5_sudo_header emptyRO { sudoVal := some (.num 42) } (.num 42) rfl rfl
    (by simp [emptyRO]) c5Out rfl
  exact ⟨rfl, h.1⟩

/-- Claim C9: errors from the injected auth-header function, the options
handler, and the request handler propagate unmodified through a verb call:
a rejected auth-header promise rejects the verb call with the same error
regardless of the handlers; a rejected options handler rejects the verb
call with its error; and once both earlier stages succeed the verb call's
outcome is exactly the request handler's outcome, so its error (if any)
reaches the caller untouched. -/
theorem c9_error_propagation (optionsHandler : OptionsHandlerFn)
    (requestHandler : RequestHandlerFn) (serviceOptions : ResourceOptions)
    (m endpoint : String) (callOptions : DefaultRequestOptions) :
    (∀ k fn rest e, serviceOptions.authHeaders = (k, fn) :: rest → fn.result = .error e →
        (mkVerbFn optionsHandler requestHandler serviceOptions m endpoint callOptions).2 =
          .error e)
    ∧ (∀ d e,
        (defaultOptionsHandler serviceOptions
            { callOptions with method := some (toUpperCase m) }).2 = .ok d →
        optionsHandler serviceOptions d = .error e →
        (mkVerbFn optionsHandler requestHandler serviceOptions m endpoint callOptions).2 =
          .error e)
    ∧ (∀ d finalOptions,
        (defaultOptionsHandler serviceOptions
            { callOptions with method := some (toUpperCase m) }).2 = .ok d →
        optionsHandler serviceOptions d = .ok finalOptions →
        (mkVerbFn optionsHandler requestHandler serviceOptions m endpoint callOptions).2 =
          requestHandler endpoint finalOptions) := by
  refine ⟨?_, ?_, ?_⟩
  · intro k fn rest e hau he
    unfold mkVerbFn
    rw [defaultOptionsHandler_eq]
    simp [hau, he, Except.map, Except.bind]
  · intro d e hd hoh
    unfold mkVerbFn
    simp [hd, hoh, Except.bind]
  · intro d finalOptions hd hoh
    unfold mkVerbFn
    simp [hd, hoh, Except.bind]

/-- Witness for C9: a rejected auth-header function rejects the GET call
with the same error string through arbitrary concrete handlers. -/
theorem c9_witness :
    (mkVerbFn idOptionsHandler (fun _ _ => .ok ⟨.num 1, [], 200⟩)
        ⟨[], [("Authorization", ⟨3, .error "boom"⟩)], "u", none, none, none⟩
        "get" "widgets" {}).2 = .error "boom" :=
  (c9_error_propagation idOptionsHandler (fun _ _ => .ok ⟨.num 1, [], 200⟩)
      ⟨[], [("Authorization", ⟨3, .error "boom"⟩)], "u", none, none, none⟩
      "get" "widgets" {}).1 "Authorization" ⟨3, .error "boom"⟩ [] "boom" rfl rfl

/-- Claim C4: with the identity options handler, a verb call forwards to the
request handler the endpoint unchanged together with the built options,
whose method is the upper-cased verb name and whose prefixUrl is the
service URL; the requester produced by createRequesterFn exposes exactly
these verb functions for get/post/put/patch/delete, and the five verb names
upper-case to GET/POST/PUT/PATCH/DELETE. -/
theorem c4_verb_dispatch (requestHandler : RequestHandlerFn)
    (serviceOptions : ResourceOptions) (endpoint : String)
    (callOptions : DefaultRequestOptions) (m : String) (d : RequestOptions)
    (_hm : m ∈ methods)
    (hd : (defaultOptionsHandler serviceOptions
        { callOptions with method := some (toUpperCase m) }).2 = .ok d) :
    mkVerbFn idOptionsHandler requestHandler serviceOptions m endpoint callOptions =
      ((defaultOptionsHandler serviceOptions
          { callOptions with method := some (toUpperCase m) }).1,
        requestHandler endpoint d)
    ∧ d.method = some (toUpperCase m)
    ∧ d.prefixUrl = some serviceOptions.url
    ∧ (createRequesterFn idOptionsHandler requestHandler serviceOptions).get =
        mkVerbFn idOptionsHandler requestHandler serviceOptions "get"
    ∧ (createRequesterFn idOptionsHandler requestHandler serviceOptions).post =
        mkVerbFn idOptionsHandler requestHandler serviceOptions "post"
    ∧ (createRequesterFn idOptionsHandler requestHandler serviceOptions).put =
        mkVerbFn idOptionsHandler requestHandler serviceOptions "put"
    ∧ (createRequesterFn idOptionsHandler requestHandler serviceOptions).patch =
        mkVerbFn idOptionsHandler requestHandler serviceOptions "patch"
    ∧ (createRequesterFn idOptionsHandler requestHandler serviceOptions).delete =
        mkVerbFn idOptionsHandler requestHandler serviceOptions "delete"
    ∧ toUpperCase "get" = "GET" ∧ toUpperCase "post" = "POST" ∧ toUpperCase "put" = "PUT"
    ∧ toUpperCase "patch" = "PATCH" ∧ toUpperCase "delete" = "DELETE" := by
  have hfields := defaultOptionsHandler_ok_fields serviceOptions
    { callOptions with method := some (toUpperCase m) } d hd
  refine ⟨?_, ?_, hfields.2.1, rfl, rfl, rfl, rfl, rfl, rfl, rfl, rfl, rfl, rfl⟩
  · unfold mkVerbFn
    simp [hd, idOptionsHandler, Except.bind]
  · simpa using hfields.1

/-- Built options of a plain get call on a service with url "https://x". -/
def c4Out : RequestOptions :=
  { method := some "GET", asStream := some false, prefixUrl := some "https://x",
    headers := some [] }

/-- Witness for C4: the spec's example, `get("widgets")` on a service with
url "https://x" and a recording-style request handler: the handler receives
endpoint "widgets" and options with method GET and prefixUrl "https://x". -/
theorem c4_witness :
    mkVerbFn idOptionsHandler (fun e o => .ok ⟨.str e, o.hdrs, 200⟩)
        ⟨[], [], "https://x", none, none, none⟩ "get" "widgets" {} =
      ([], (fun (e : String) (o : RequestOptions) =>
          Except.ok (ε := Err) (FormattedResponse.mk (.str e) o.hdrs 200)) "widgets" c4Out)
    ∧ c4Out.method = some (toUpperCase "get")
    ∧ c4Out.prefixUrl = some "https://x" := by
  have h := c4_verb_dispatch (fun e o => .ok ⟨.str e, o.hdrs, 200⟩)
    ⟨[], [], "https://x", none, none, none⟩ "widgets" {} "get" c4Out
    (by simp [methods]) rfl
  exact ⟨h.1, h.2.1, h.2.2.1⟩

/-- Claim C10: a caller-supplied method in the per-call options is ignored:
the verb function is invariant under overwriting (or clearing) the caller's
method field, because the injected upper-cased verb name is spread after
the caller's options; and whenever the builder succeeds, the options it
produced carry the upper-cased verb name as method. -/
theorem c10_method_override_ignored (optionsHandler : OptionsHandlerFn)
    (requestHandler : RequestHandlerFn) (serviceOptions : ResourceOptions)
    (m endpoint : String) (callOptions : DefaultRequestOptions) (mv : Option String) :
    mkVerbFn optionsHandler requestHandler serviceOptions m endpoint
        { callOptions with method := mv } =
      mkVerbFn optionsHandler requestHandler serviceOptions m endpoint callOptions
    ∧ (∀ d, (defaultOptionsHandler serviceOptions
          { callOptions with method := some (toUpperCase m) }).2 = .ok d →
        d.method = some (toUpperCase m)) := by
  constructor
  · unfold mkVerbFn
    obtain ⟨b, sp, sv, mm, strm, sg⟩ := callOptions
    rfl
  · intro d hd
    have hfields := defaultOptionsHandler_ok_fields serviceOptions
      { callOptions with method := some (toUpperCase m) } d hd
    simpa using hfields.1

/-- Built options of a plain get call on `emptyRO`. -/
def emptyOut : RequestOptions :=
  { method := some "GET", asStream := some false, prefixUrl := some "u", headers := some [] }

/-- Witness for C10: a caller trying to force method "DELETE" on a get call
changes nothing, and the built options of a get call carry method "GET". -/
theorem c10_witness :
    mkVerbFn idOptionsHandler (fun e o => .ok ⟨.str e, o.hdrs, 200⟩) emptyRO "get" "w"
        { method := some "DELETE" } =
      mkVerbFn idOptionsHandler (fun e o => .ok ⟨.str e, o.hdrs, 200⟩) emptyRO "get" "w" {}
    ∧ emptyOut.method = some (toUpperCase "get") := by
  have h := c10_method_override_ignored idOptionsHandler
    (fun e o => .ok ⟨.str e, o.hdrs, 200⟩) emptyRO "get" "w" {} (some "DELETE")
  exact ⟨h.1, h.2 emptyOut rfl⟩

theorem objUpdate_cons (m : List (String × JVal)) (p : String × JVal)
    (t : List (String × JVal)) :
    objUpdate m (p :: t) = objUpdate (setKey m p.1 p.2) t := rfl

/-- Lookup in an object built by assigning `l` on top of `m`: the binding
from `l` wins when present, otherwise the binding of `m` shows through. -/
theorem getKey_objUpdate (l m : List (String × JVal)) (k : String) :
    getKey (objUpdate m l) k = (getKey (objUpdate [] l) k).or (getKey m k) := by
  induction l generalizing m with
  | nil => simp [objUpdate, getKey]
  | cons p t ih =>
      rw [objUpdate_cons, objUpdate_cons, ih, ih (setKey [] p.1 p.2)]
      cases h : getKey (objUpdate [] t) k with
      | some w => simp [Option.or_some]
      | none =>
          simp only [Option.none_or]
          by_cases hk : k = p.1
          · subst hk
            rw [getKey_setKey_self, getKey_setKey_self]
            simp [Option.or_some]
          · rw [getKey_setKey_ne _ _ _ _ hk, getKey_setKey_ne _ _ _ _ hk]
            simp [getKey]

/-- Claim C3: every constructor in the input mapping is wrapped so that
instantiating it with `(config, ...rest)` is exactly instantiating the
original with `({...presetConfig, ...config}, ...rest)`; the merge is
shallow and the caller's config wins on key collisions (lookup in the
merged object is the config binding, falling back to the preset binding),
as the spec's concrete examples illustrate, including a nested object taken
whole from the caller rather than deep-merged. -/
theorem c3_preset_constructor (resources : List (String × ResVal))
    (presetConfig : List (String × JVal)) (k : String) (c : CtorFn)
    (hmem : (k, ResVal.ctor c) ∈ resources) :
    (k, ResVal.ctor (createPresetConstructor c presetConfig)) ∈
        presetResourceArguments resources presetConfig
    ∧ (∀ config rest, createPresetConstructor c presetConfig config rest =
        c (spreadMerge presetConfig config) rest)
    ∧ (∀ config key, getKey (spreadMerge presetConfig config) key =
        (getKey (objUpdate [] config) key).or (getKey (objUpdate [] presetConfig) key))
    ∧ spreadMerge [("base", .num 1)] [("extra", .num 2)] =
        [("base", JVal.num 1), ("extra", JVal.num 2)]
    ∧ spreadMerge [("base", .num 1)] [("base", .num 9)] = [("base", JVal.num 9)]
    ∧ spreadMerge [("o", .obj [("x", .num 1)])] [("o", .obj [("y", .num 2)])] =
        [("o", JVal.obj [("y", JVal.num 2)])] := by
  refine ⟨?_, fun _ _ => rfl, ?_, rfl, rfl, rfl⟩
  · unfold presetResourceArguments
    exact List.mem_map.mpr ⟨(k, ResVal.ctor c), hmem, rfl⟩
  · intro config key
    exact getKey_objUpdate config (objUpdate [] presetConfig) key

/-- A concrete constructor that records its received configuration, for the
preset witnesses. -/
def recCtor : CtorFn := fun config _ => JVal.obj config

/-- Witness for C3: wrapping `recCtor` with preset `{base: 1}` and invoking
with `{extra: 2}` constructs from the merged `{base: 1, extra: 2}`, while
invoking with `{base: 9}` constructs from `{base: 9}` (caller wins). -/
theorem c3_witness :
    ("A", ResVal.ctor (createPresetConstructor recCtor [("base", .num 1)])) ∈
        presetResourceArguments [("A", ResVal.ctor recCtor)] [("base", .num 1)]
    ∧ createPresetConstructor recCtor [("base", .num 1)] [("extra", .num 2)] [] =
        JVal.obj [("base", JVal.num 1), ("extra", JVal.num 2)]
    ∧ createPresetConstructor recCtor [("base", .num 1)] [("base", .num 9)] [] =
        JVal.obj [("base", JVal.num 9)] := by
  have h := c3_preset_constructor [("A", ResVal.ctor recCtor)] [("base", .num 1)] "A" recCtor
    (List.mem_singleton_self _)
  refine ⟨h.1, ?_, ?_⟩
  · rw [h.2.1 [("extra", .num 2)] []]
    rfl
  · rw [h.2.1 [("base", .num 9)] []]
    rfl

/-- Claim C8: every non-constructor value of the input mapping is passed
through to the output mapping unchanged, at the same position and under the
same key. -/
theorem c8_plain_passthrough (resources : List (String × ResVal))
    (customConfig : List (String × JVal)) (i : Nat) (k : String) (v : JVal)
    (h : resources[i]? = some (k, ResVal.plain v)) :
    (presetResourceArguments resources customConfig)[i]? = some (k, ResVal.plain v) := by
  unfold presetResourceArguments
  rw [List.getElem?_map, h]
  rfl

/-- Witness for C8: a plain value at index 1 of a mixed mapping survives
wrapping untouched. -/
theorem c8_witness :
    (presetResourceArguments [("A", ResVal.ctor recCtor), ("ver", ResVal.plain (.str "1.0"))]
        [("base", .num 1)])[1]? = some ("ver", ResVal.plain (JVal.str "1.0")) :=
  c8_plain_passthrough [("A", ResVal.ctor recCtor), ("ver", ResVal.plain (.str "1.0"))]
    [("base", .num 1)] 1 "ver" (.str "1.0") rfl

theorem readH_writeH_ne (σ : Store) (r j : Nat) (h : HMap) (hne : j ≠ r) :
    readH (writeH σ r h) j = readH σ j := by
  unfold readH writeH
  rw [List.getD_eq_getElem?_getD, List.getD_eq_getElem?_getD,
    List.getElem?_set_ne (fun he => hne he.symm)]

theorem readH_append_lt (σ : Store) (h : HMap) (j : Nat) (hj : j < σ.length) :
    readH (σ ++ [h]) j = readH σ j := by
  unfold readH
  rw [List.getD_eq_getElem?_getD, List.getD_eq_getElem?_getD, List.getElem?_append_left hj]

/-- Claim C6: the builder returns a populated RequestOptions (it resolves
successfully whenever the single consulted auth-header function does, and
its headers object is the freshly allocated copy, a reference distinct from
the input's headers reference) and never mutates the input resourceOptions
object or its nested collections: every store location that existed before
the call, in particular the location holding `resourceOptions.headers`, is
unchanged afterwards, even though the result's headers copy may gain sudo,
content-type, or auth-header entries. -/
theorem c6_no_input_mutation (σ : Store) (resourceOptions : ResourceOptionsRef)
    (callOptions : DefaultRequestOptions)
    (href : resourceOptions.headersRef < σ.length) :
    readH (defaultOptionsHandlerH σ resourceOptions callOptions).1
        resourceOptions.headersRef = readH σ resourceOptions.headersRef
    ∧ (∀ j, j < σ.length →
        readH (defaultOptionsHandlerH σ resourceOptions callOptions).1 j = readH σ j)
    ∧ (∀ d, (defaultOptionsHandlerH σ resourceOptions callOptions).2.2 = .ok d →
        d.headersRef = σ.length ∧ d.headersRef ≠ resourceOptions.headersRef)
    ∧ (resourceOptions.authHeaders = [] →
        ∃ d, (defaultOptionsHandlerH σ resourceOptions callOptions).2.2 = .ok d)
    ∧ (∀ k fn rest v, resourceOptions.authHeaders = (k, fn) :: rest → fn.result = .ok v →
        ∃ d, (defaultOptionsHandlerH σ resourceOptions callOptions).2.2 = .ok d) := by
  have hagree : ∀ j, j < σ.length →
      readH (defaultOptionsHandlerH σ resourceOptions callOptions).1 j = readH σ j := by
    intro j hj
    have hjL : j ≠ σ.length := Nat.ne_of_lt hj
    unfold defaultOptionsHandlerH
    rcases hau : resourceOptions.authHeaders with _ | ⟨⟨ak, af⟩, rest⟩
    · rcases hs : callOptions.sudoVal with _ | sv
      · rcases hb : callOptions.body with _ | (fd | fs) <;>
          simp [readH_writeH_ne _ _ _ _ hjL, readH_append_lt _ _ _ hj]
      · by_cases ht : sudoTruthy sv <;>
          rcases hb : callOptions.body with _ | (fd | fs) <;>
            simp [ht, readH_writeH_ne _ _ _ _ hjL, readH_append_lt _ _ _ hj]
    · cases haf : af.result with
      | error e =>
          rcases hs : callOptions.sudoVal with _ | sv
          · rcases hb : callOptions.body with _ | (fd | fs) <;>
              simp [haf, readH_writeH_ne _ _ _ _ hjL, readH_append_lt _ _ _ hj]
          · by_cases ht : sudoTruthy sv <;>
              rcases hb : callOptions.body with _ | (fd | fs) <;>
                simp [haf, ht, readH_writeH_ne _ _ _ _ hjL, readH_append_lt _ _ _ hj]
      | ok v =>
          rcases hs : callOptions.sudoVal with _ | sv
          · rcases hb : callOptions.body with _ | (fd | fs) <;>
              simp [haf, readH_writeH_ne _ _ _ _ hjL, readH_append_lt _ _ _ hj]
          · by_cases ht : sudoTruthy sv <;>
              rcases hb : callOptions.body with _ | (fd | fs) <;>
                simp [haf, ht, readH_writeH_ne _ _ _ _ hjL, readH_append_lt _ _ _ hj]
  refine ⟨hagree resourceOptions.headersRef href, hagree, ?_, ?_, ?_⟩
  · intro d hd
    rcases hau : resourceOptions.authHeaders with _ | ⟨⟨ak, af⟩, rest⟩
    · simp only [defaultOptionsHandlerH, hau, Except.ok.injEq] at hd
      subst hd
      exact ⟨rfl, Nat.ne_of_gt href⟩
    · cases haf : af.result with
      | error e => simp [defaultOptionsHandlerH, hau, haf] at hd
      | ok v =>
          simp only [defaultOptionsHandlerH, hau, haf, Except.ok.injEq] at hd
          subst hd
          exact ⟨rfl, Nat.ne_of_gt href⟩
  · intro hau
    simp only [defaultOptionsHandlerH, hau]
    exact ⟨_, rfl⟩
  · intro k fn rest v hau haf
    simp only [defaultOptionsHandlerH, hau, haf]
    exact ⟨_, rfl⟩

/-- Witness for C6: a store with one preconfigured headers object (location
0) is extended, the original location is untouched, and the result's
headers live at the fresh location 1. -/
theorem c6_witness :
    readH (defaultOptionsHandlerH [[("a", "1")]]
        { headersRef := 0, authHeaders := [], url := "u" }
        { sudoVal := some (.num 42) }).1 0 = [("a", "1")]
    ∧ (∀ d, (defaultOptionsHandlerH [[("a", "1")]]
        { headersRef := 0, authHeaders := [], url := "u" }
        { sudoVal := some (.num 42) }).2.2 = .ok d → d.headersRef = 1 ∧ d.headersRef ≠ 0) := by
  have h := c6_no_input_mutation [[("a", "1")]]
    { headersRef := 0, authHeaders := [], url := "u" } { sudoVal := some (.num 42) }
    (by decide)
  exact ⟨h.1, h.2.2.1⟩

/-- Induction principle for the nested value type: to prove a property of
every value it suffices to cover scalars and to propagate it through array
elements and object member values. -/
def JVal.induct (P : JVal → Prop)
    (hstr : ∀ s, P (.str s)) (hnum : ∀ n, P (.num n))
    (harr : ∀ xs, (∀ x ∈ xs, P x) → P (.arr xs))
    (hobj : ∀ fs, (∀ p ∈ fs, P p.2) → P (.obj fs)) : ∀ v, P v
  | .str s => hstr s
  | .num n => hnum n
  | .arr xs => harr xs (fun x _ => JVal.induct P hstr hnum harr hobj x)
  | .obj fs => hobj fs (fun p _ => JVal.induct P hstr hnum harr hobj p.2)
termination_by v => sizeOf v
decreasing_by
  · simp_wf
    have := List.sizeOf_lt_of_mem (by assumption : x ∈ xs)
    omega
  · simp_wf
    have := List.sizeOf_lt_of_mem (by assumption : p ∈ fs)
    cases p
    simp at this ⊢
    omega

theorem toNat_ofNat_valid (n : Nat) (h : n.isValidChar) : (Char.ofNat n).toNat = n := by
  simp only [Char.ofNat, dif_pos h, Char.ofNatAux, Char.toNat, UInt32.toNat]
  simp [BitVec.toNat_ofNatLt]

theorem isUpper_iff (c : Char) : c.isUpper = true ↔ 65 ≤ c.toNat ∧ c.toNat ≤ 90 := by
  simp only [Char.isUpper, Bool.and_eq_true, decide_eq_true_eq, ge_iff_le, UInt32.le_def,
    BitVec.le_def, Char.toNat, UInt32.toNat]
  exact Iff.rfl

theorem toLower_not_upper (c : Char) : (Char.toLower c).isUpper = false := by
  have hdef : Char.toLower c =
      if c.toNat ≥ 65 ∧ c.toNat ≤ 90 then Char.ofNat (c.toNat + 32) else c := rfl
  rw [hdef]
  split
  · rename_i h
    have hv : (c.toNat + 32).isValidChar := by
      left
      omega
    rw [Bool.eq_false_iff]
    intro hu
    rw [isUpper_iff, toNat_ofNat_valid _ hv] at hu
    omega
  · rename_i h
    rw [Bool.eq_false_iff]
    intro hu
    rw [isUpper_iff] at hu
    omega

/-- No upper-case ASCII letter occurs in the string. -/
def noUpper (s : String) : Bool := s.data.all fun c => !c.isUpper

theorem noUpper_iff (s : String) : noUpper s = true ↔ ∀ c ∈ s.data, c.isUpper = false := by
  simp [noUpper, List.all_eq_true]

theorem noUpper_append (a b : String) (ha : noUpper a = true) (hb : noUpper b = true) :
    noUpper (a ++ b) = true := by
  rw [noUpper_iff] at *
  intro c hc
  rw [String.data_append] at hc
  rcases List.mem_append.mp hc with h | h
  · exact ha c h
  · exact hb c h

theorem decamelize_noUpper (s : String) : noUpper (decamelize s) = true := by
  unfold decamelize
  cases hs : s.data with
  | nil => rfl
  | cons c cs =>
      rw [noUpper_iff]
      intro x hx
      have hdata : (String.mk (Char.toLower c :: (cs.map decamelizeChar).flatten)).data =
          Char.toLower c :: (cs.map decamelizeChar).flatten := rfl
      rw [hdata] at hx
      rcases List.mem_cons.mp hx with h | h
      · rw [h]
        exact toLower_not_upper c
      · obtain ⟨l, hl, hxl⟩ := List.mem_flatten.mp h
        obtain ⟨c', _, hc'⟩ := List.mem_map.mp hl
        rw [← hc'] at hxl
        unfold decamelizeChar at hxl
        by_cases hu : c'.isUpper
        · rw [if_pos hu] at hxl
          rcases List.mem_cons.mp hxl with h1 | h1
          · rw [h1]
            rfl
          · rw [List.mem_singleton.mp h1]
            exact toLower_not_upper c'
        · rw [if_neg hu] at hxl
          rw [List.mem_singleton.mp hxl]
          exact Bool.eq_false_iff.mpr hu

/-- The key part of an encoded pair: the characters before the first
equals sign. -/
def keyPart (s : String) : List Char := s.data.takeWhile fun c => decide (c ≠ '=')

theorem keyPart_chars (kd rest : List Char) (h : ∀ c ∈ kd, c.isUpper = false) :
    ∀ c ∈ (kd ++ '=' :: rest).takeWhile (fun c => decide (c ≠ '=')), c.isUpper = false := by
  induction kd with
  | nil =>
      intro c hc
      simp [List.takeWhile] at hc
  | cons a t ih =>
      intro c hc
      rw [List.cons_append, List.takeWhile_cons] at hc
      split at hc
      · rcases List.mem_cons.mp hc with h1 | h1
        · rw [h1]
          exact h a (List.mem_cons_self a t)
        · exact ih (fun x hx => h x (List.mem_cons_of_mem a hx)) c h1
      · simp at hc

theorem decamelizeList_eq (xs : List JVal) : decamelizeList xs = xs.map decamelizeVal := by
  induction xs with
  | nil => rfl
  | cons x t ih => simp [decamelizeList, ih]

theorem decamelizeFields_eq (fs : List (String × JVal)) :
    decamelizeFields fs = fs.map fun p => (decamelize p.1, decamelizeVal p.2) := by
  induction fs with
  | nil => rfl
  | cons p t ih =>
      obtain ⟨k, v⟩ := p
      simp [decamelizeFields, ih]

theorem mem_qsPairsList (s kp : String) (xs : List JVal) :
    s ∈ qsPairsList kp xs ↔ ∃ x ∈ xs, s ∈ qsPairs kp x := by
  induction xs with
  | nil => simp [qsPairsList]
  | cons x t ih => simp [qsPairsList, ih]

theorem mem_qsPairsFields (s kp : String) (fs : List (String × JVal)) :
    s ∈ qsPairsFields kp fs ↔ ∃ p ∈ fs, s ∈ qsPairs (kp ++ "[" ++ p.1 ++ "]") p.2 := by
  induction fs with
  | nil => simp [qsPairsFields]
  | cons p t ih =>
      obtain ⟨k, v⟩ := p
      simp [qsPairsFields, ih]

theorem mem_qsTopPairs (s : String) (fs : List (String × JVal)) :
    s ∈ qsTopPairs fs ↔ ∃ p ∈ fs, s ∈ qsPairs p.1 p.2 := by
  induction fs with
  | nil => simp [qsTopPairs]
  | cons p t ih =>
      obtain ⟨k, v⟩ := p
      simp [qsTopPairs, ih]

mutual

/-- The leaf values of a mapping value, rendered the way the query encoder
renders them. -/
def leafStrs : JVal → List String
  | .str s => [s]
  | .num n => [intToString n]
  | .arr xs => leafStrsList xs
  | .obj fs => leafStrsFields fs

/-- Leaves of all elements of an array. -/
def leafStrsList : List JVal → List String
  | [] => []
  | x :: t => leafStrs x ++ leafStrsList t

/-- Leaves of all member values of an object. -/
def leafStrsFields : List (String × JVal) → List String
  | [] => []
  | (_, v) :: t => leafStrs v ++ leafStrsFields t

end

theorem mem_leafStrsList (l : String) (xs : List JVal) :
    l ∈ leafStrsList xs ↔ ∃ x ∈ xs, l ∈ leafStrs x := by
  induction xs with
  | nil => simp [leafStrsList]
  | cons x t ih => simp [leafStrsList, ih]

theorem mem_leafStrsFields (l : String) (fs : List (String × JVal)) :
    l ∈ leafStrsFields fs ↔ ∃ p ∈ fs, l ∈ leafStrs p.2 := by
  induction fs with
  | nil => simp [leafStrsFields]
  | cons p t ih =>
      obtain ⟨k, v⟩ := p
      simp [leafStrsFields, ih]

theorem data_key_eq_value (kp tail : String) :
    (kp ++ "=" ++ tail).data = kp.data ++ '=' :: tail.data := by
  simp [String.data_append]

/-- Every pair the encoder generates for a decamelized value under a
snake_case key path has a snake_case key part. -/
theorem qsPairs_key_noUpper (v : JVal) :
    ∀ kp, noUpper kp = true →
      ∀ s ∈ qsPairs kp (decamelizeVal v), ∀ c ∈ keyPart s, c.isUpper = false := by
  induction v using JVal.induct with
  | hstr s0 =>
      intro kp hkp s hs c hc
      simp only [decamelizeVal, qsPairs, List.mem_singleton] at hs
      subst hs
      unfold keyPart at hc
      rw [data_key_eq_value] at hc
      exact keyPart_chars kp.data s0.data ((noUpper_iff kp).mp hkp) c hc
  | hnum n =>
      intro kp hkp s hs c hc
      simp only [decamelizeVal, qsPairs, List.mem_singleton] at hs
      subst hs
      unfold keyPart at hc
      rw [data_key_eq_value] at hc
      exact keyPart_chars kp.data (intToString n).data ((noUpper_iff kp).mp hkp) c hc
  | harr xs ih =>
      intro kp hkp s hs c hc
      simp only [decamelizeVal, qsPairs] at hs
      rw [decamelizeList_eq] at hs
      obtain ⟨y, hy, hsy⟩ := (mem_qsPairsList s (kp ++ "[]") (xs.map decamelizeVal)).mp hs
      obtain ⟨x, hx, hyx⟩ := List.mem_map.mp hy
      subst hyx
      have hkpb : noUpper (kp ++ "[]") = true := noUpper_append kp "[]" hkp rfl
      exact ih x hx (kp ++ "[]") hkpb s hsy c hc
  | hobj fs ih =>
      intro kp hkp s hs c hc
      simp only [decamelizeVal, qsPairs] at hs
      rw [decamelizeFields_eq] at hs
      obtain ⟨q, hq, hsq⟩ := (mem_qsPairsFields s kp
        (fs.map fun p => (decamelize p.1, decamelizeVal p.2))).mp hs
      obtain ⟨p, hp, hqp⟩ := List.mem_map.mp hq
      subst hqp
      have hkpb : noUpper (kp ++ "[" ++ decamelize p.1 ++ "]") = true := by
        refine noUpper_append _ "]" ?_ rfl
        refine noUpper_append _ _ ?_ (decamelize_noUpper p.1)
        exact noUpper_append kp "[" hkp rfl
      exact ih p hp (kp ++ "[" ++ decamelize p.1 ++ "]") hkpb s hsq c hc

/-- Decamelizing keys does not change the leaf values. -/
theorem leafStrs_decamelizeVal (v : JVal) : leafStrs (decamelizeVal v) = leafStrs v := by
  induction v using JVal.induct with
  | hstr s0 => rfl
  | hnum n => rfl
  | harr xs ih =>
      simp only [decamelizeVal, leafStrs, decamelizeList_eq]
      induction xs with
      | nil => rfl
      | cons x t iht =>
          simp only [List.map_cons, leafStrsList]
          rw [ih x (List.mem_cons_self x t),
            iht (fun y hy => ih y (List.mem_cons_of_mem x hy))]
  | hobj fs ih =>
      simp only [decamelizeVal, leafStrs, decamelizeFields_eq]
      induction fs with
      | nil => rfl
      | cons p t iht =>
          simp only [List.map_cons, leafStrsFields]
          rw [ih p (List.mem_cons_self p t),
            iht (fun q hq => ih q (List.mem_cons_of_mem p hq))]

/-- Every leaf of a value occurs inside one of the pairs the encoder
generates for it. -/
theorem leaf_in_qsPairs (v : JVal) :
    ∀ kp l, l ∈ leafStrs v →
      ∃ s ∈ qsPairs kp v, ∃ a b, s.data = a ++ l.data ++ b := by
  induction v using JVal.induct with
  | hstr s0 =>
      intro kp l hl
      rw [leafStrs, List.mem_singleton] at hl
      subst hl
      refine ⟨kp ++ "=" ++ l, List.mem_singleton_self _, kp.data ++ ['='], [], ?_⟩
      simp [String.data_append]
  | hnum n =>
      intro kp l hl
      rw [leafStrs, List.mem_singleton] at hl
      subst hl
      refine ⟨kp ++ "=" ++ intToString n, List.mem_singleton_self _, kp.data ++ ['='], [], ?_⟩
      simp [String.data_append]
  | harr xs ih =>
      intro kp l hl
      rw [leafStrs, mem_leafStrsList] at hl
      obtain ⟨x, hx, hlx⟩ := hl
      obtain ⟨s, hs, a, b, hab⟩ := ih x hx (kp ++ "[]") l hlx
      exact ⟨s, (mem_qsPairsList s (kp ++ "[]") xs).mpr ⟨x, hx, hs⟩, a, b, hab⟩
  | hobj fs ih =>
      intro kp l hl
      rw [leafStrs, mem_leafStrsFields] at hl
      obtain ⟨p, hp, hlp⟩ := hl
      obtain ⟨s, hs, a, b, hab⟩ := ih p hp (kp ++ "[" ++ p.1 ++ "]") l hlp
      exact ⟨s, (mem_qsPairsFields s kp fs).mpr ⟨p, hp, hs⟩, a, b, hab⟩

/-- Every pair occurs contiguously inside the ampersand-joined result. -/
theorem pair_in_joinAmp (ps : List String) (s : String) (hs : s ∈ ps) :
    ∃ a b, (joinAmp ps).data = a ++ s.data ++ b := by
  induction ps with
  | nil => simp at hs
  | cons s0 t ih =>
      cases t with
      | nil =>
          rw [List.mem_singleton] at hs
          subst hs
          exact ⟨[], [], by simp [joinAmp]⟩
      | cons u r =>
          rcases List.mem_cons.mp hs with h | h
          · subst h
            refine ⟨[], '&' :: (joinAmp (u :: r)).data, ?_⟩
            simp [joinAmp, String.data_append]
          · obtain ⟨a, b, hab⟩ := ih h
            refine ⟨s0.data ++ '&' :: a, b, ?_⟩
            simp [joinAmp, String.data_append, hab]

/-- A scalar query value (string or number). -/
def isScalar : JVal → Bool
  | .str _ => true
  | .num _ => true
  | _ => false

/-- Rendering of a scalar query value. -/
def scalarStr : JVal → String
  | .str s => s
  | .num n => intToString n
  | _ => ""

/-- Claim C7: formatQuery of the empty mapping is the empty string; every
pair composing the output has a snake_case (upper-case free) key part, keys
of nested mappings included; every leaf value of the mapping occurs
contiguously in the output; and each scalar element of an array-valued
field is rendered as a bracketed segment `key[]=value` occurring in the
output, so array fields appear as repeated `key[]=` segments. -/
theorem c7_formatQuery (m : List (String × JVal)) :
    formatQuery [] = ""
    ∧ (∀ s ∈ qsTopPairs (decamelizeFields m), ∀ c ∈ keyPart s, c.isUpper = false)
    ∧ (∀ l ∈ leafStrs (.obj m), ∃ a b, (formatQuery m).data = a ++ l.data ++ b)
    ∧ (∀ k xs x, (k, JVal.arr xs) ∈ m → x ∈ xs → isScalar x = true →
        ∃ a b, (formatQuery m).data =
          a ++ (decamelize k ++ "[]=" ++ scalarStr x).data ++ b) := by
  refine ⟨rfl, ?_, ?_, ?_⟩
  · intro s hs c hc
    rw [decamelizeFields_eq] at hs
    obtain ⟨q, hq, hsq⟩ := (mem_qsTopPairs s _).mp hs
    obtain ⟨p, hp, hqp⟩ := List.mem_map.mp hq
    subst hqp
    exact qsPairs_key_noUpper p.2 (decamelize p.1) (decamelize_noUpper p.1) s hsq c hc
  · intro l hl
    rw [show leafStrs (.obj m) = leafStrsFields m from rfl, mem_leafStrsFields] at hl
    obtain ⟨p, hp, hlp⟩ := hl
    rw [← leafStrs_decamelizeVal p.2] at hlp
    obtain ⟨s, hs, a', b', hab'⟩ := leaf_in_qsPairs (decamelizeVal p.2) (decamelize p.1) l hlp
    have hmem : s ∈ qsTopPairs (decamelizeFields m) := by
      rw [decamelizeFields_eq]
      exact (mem_qsTopPairs s _).mpr
        ⟨(decamelize p.1, decamelizeVal p.2), List.mem_map.mpr ⟨p, hp, rfl⟩, hs⟩
    obtain ⟨a, b, hab⟩ := pair_in_joinAmp (qsTopPairs (decamelizeFields m)) s hmem
    refine ⟨a ++ a', b' ++ b, ?_⟩
    rw [show (formatQuery m).data = (joinAmp (qsTopPairs (decamelizeFields m))).data from rfl,
      hab, hab']
    simp [List.append_assoc]
  · intro k xs x hkm hx hscal
    have hpair : (decamelize k ++ "[]" ++ "=" ++ scalarStr x) ∈
        qsPairs (decamelize k) (decamelizeVal (.arr xs)) := by
      rw [show decamelizeVal (.arr xs) = .arr (decamelizeList xs) from rfl]
      rw [show qsPairs (decamelize k) (.arr (decamelizeList xs)) =
        qsPairsList (decamelize k ++ "[]") (decamelizeList xs) from rfl]
      rw [mem_qsPairsList, decamelizeList_eq]
      refine ⟨decamelizeVal x, List.mem_map.mpr ⟨x, hx, rfl⟩, ?_⟩
      cases x with
      | str s0 => exact List.mem_singleton_self _
      | num n => exact List.mem_singleton_self _
      | arr ys => simp [isScalar] at hscal
      | obj gs => simp [isScalar] at hscal
    have hmem : (decamelize k ++ "[]" ++ "=" ++ scalarStr x) ∈
        qsTopPairs (decamelizeFields m) := by
      rw [decamelizeFields_eq]
      exact (mem_qsTopPairs _ _).mpr
        ⟨(decamelize k, decamelizeVal (.arr xs)),
          List.mem_map.mpr ⟨(k, JVal.arr xs), hkm, rfl⟩, hpair⟩
    obtain ⟨a, b, hab⟩ := pair_in_joinAmp (qsTopPairs (decamelizeFields m)) _ hmem
    refine ⟨a, b, ?_⟩
    rw [show (formatQuery m).data = (joinAmp (qsTopPairs (decamelizeFields m))).data from rfl,
      hab]
    simp [String.data_append]

/-- The sample mapping of the C7 witness: a camelCase scalar field and a
camelCase array field. -/
def c7M : List (String × JVal) := [("userName", .str "x"), ("tagIds", .arr [.num 1, .num 2])]

/-- Witness for C7: on the sample mapping the query is fully computable and
the theorem's guarantees hold at the concrete leaves and array elements. -/
theorem c7_witness :
    formatQuery [] = ""
    ∧ formatQuery c7M = "user_name=x&tag_ids[]=1&tag_ids[]=2"
    ∧ (∀ c ∈ keyPart "user_name=x", c.isUpper = false)
    ∧ (∃ a b, (formatQuery c7M).data = a ++ "x".data ++ b)
    ∧ (∃ a b, (formatQuery c7M).data =
        a ++ (decamelize "tagIds" ++ "[]=" ++ scalarStr (JVal.num 1)).data ++ b) := by
  obtain ⟨h1, h2, h3, h4⟩ := c7_formatQuery c7M
  refine ⟨h1, by decide, ?_, ?_, ?_⟩
  · exact h2 "user_name=x" (by decide)
  · exact h3 "x" (by decide)
  · exact h4 "tagIds" [.num 1, .num 2] (.num 1) (by simp [c7M]) (by simp) rfl
